import Mathlib

/-!
Verification of the boundary timing-model extractor
(`src/search/MakeTimingModel.cc` of OpenSTA) against its specification.

The C++ code is shallowly embedded: pure helpers become Lean functions,
the stateful driver loops become explicit state passing over an `StaStateC`
record, and the external collaborators (search engine, delay calculator,
library data model) are parameters of an environment record `EnvC`.
Timing values (C++ `float`) are modelled as `Int`; the claims under
verification are about data flow, aggregation and control structure, not
floating-point rounding.
-/

namespace STA

/-- Rise/fall transition identity, mirroring `RiseFall` in the source. -/
inductive RiseFall
  | rise
  | fall
deriving DecidableEq, Repr

/-- `RiseFall::range()`: the two transitions, rise then fall. -/
def RiseFall.range : List RiseFall := [RiseFall.rise, RiseFall.fall]

/-- Min/max analysis extreme, mirroring `MinMax`. -/
inductive MinMax
  | min
  | max
deriving DecidableEq, Repr

/-- `MinMax::range()`: both extremes. -/
def MinMax.range : List MinMax := [MinMax.min, MinMax.max]

/-- Worst value for an analysis extreme: larger for max, smaller for min. -/
def MinMax.worstOf : MinMax → Int → Int → Int
  | MinMax.min, a, b => Min.min a b
  | MinMax.max, a, b => Max.max a b

/-- A `RiseFallMinMax` value bundle: one optional scalar per
(transition, min/max) slot, empty slots meaning "no value recorded". -/
structure RiseFallMinMax where
  rise_min : Option Int
  rise_max : Option Int
  fall_min : Option Int
  fall_max : Option Int
deriving DecidableEq, Repr

/-- The empty bundle: no slot holds a value. -/
def RiseFallMinMax.empty : RiseFallMinMax :=
  ⟨Option.none, Option.none, Option.none, Option.none⟩

/-- `RiseFallMinMax::value`: read one slot. -/
def RiseFallMinMax.value (m : RiseFallMinMax) : RiseFall → MinMax → Option Int
  | RiseFall.rise, MinMax.min => m.rise_min
  | RiseFall.rise, MinMax.max => m.rise_max
  | RiseFall.fall, MinMax.min => m.fall_min
  | RiseFall.fall, MinMax.max => m.fall_max

/-- Modelled from the spec: `RiseFallMinMax::setValue` lives in collaborator
code not under src/; per the spec each scalar value slot is overwritten per
write, not merged. -/
def RiseFallMinMax.setValue (m : RiseFallMinMax) (rf : RiseFall) (mm : MinMax)
    (v : Int) : RiseFallMinMax :=
  match rf, mm with
  | RiseFall.rise, MinMax.min => { m with rise_min := Option.some v }
  | RiseFall.rise, MinMax.max => { m with rise_max := Option.some v }
  | RiseFall.fall, MinMax.min => { m with fall_min := Option.some v }
  | RiseFall.fall, MinMax.max => { m with fall_max := Option.some v }

/-- Modelled from the spec: `RiseFallMinMax::mergeValue` lives in collaborator
code not under src/; per the spec the slot is updated by taking the
MinMax-consistent worst of the existing and the new value, the new value
being stored directly when the slot is empty. -/
def RiseFallMinMax.mergeValue (m : RiseFallMinMax) (rf : RiseFall) (mm : MinMax)
    (v : Int) : RiseFallMinMax :=
  match m.value rf mm with
  | Option.some old => m.setValue rf mm (mm.worstOf old v)
  | Option.none => m.setValue rf mm v

/-- Per-output-pin aggregation (`struct OutputDelays` in the source): worst
delays per (output transition, min/max) plus the 2x2 boolean existence matrix
`rf_path_exists[input_rf][output_rf]`. -/
structure OutputDelays where
  delays : RiseFallMinMax
  rise_rise : Bool
  rise_fall : Bool
  fall_rise : Bool
  fall_fall : Bool
deriving DecidableEq, Repr

/-- `OutputDelays::OutputDelays()`: all four existence entries start false. -/
def OutputDelays.empty : OutputDelays :=
  ⟨RiseFallMinMax.empty, false, false, false, false⟩

/-- Read `rf_path_exists[input_rf][output_rf]`. -/
def OutputDelays.pathExists (d : OutputDelays) : RiseFall → RiseFall → Bool
  | RiseFall.rise, RiseFall.rise => d.rise_rise
  | RiseFall.rise, RiseFall.fall => d.rise_fall
  | RiseFall.fall, RiseFall.rise => d.fall_rise
  | RiseFall.fall, RiseFall.fall => d.fall_fall

/-- Write `rf_path_exists[input_rf][output_rf] = true`. -/
def OutputDelays.setPathExists (d : OutputDelays) : RiseFall → RiseFall → OutputDelays
  | RiseFall.rise, RiseFall.rise => { d with rise_rise := true }
  | RiseFall.rise, RiseFall.fall => { d with rise_fall := true }
  | RiseFall.fall, RiseFall.rise => { d with fall_rise := true }
  | RiseFall.fall, RiseFall.fall => { d with fall_fall := true }

/-- Replace the delay bundle of an `OutputDelays`. -/
def OutputDelays.withDelays (d : OutputDelays) (ds : RiseFallMinMax) : OutputDelays :=
  { d with delays := ds }

/-- Unateness classification, mirroring `TimingSense`. -/
inductive TimingSense
  | positive_unate
  | negative_unate
  | non_unate
  | none
deriving DecidableEq, Repr

/-- `OutputDelays::timingSense`, translated clause by clause from the source
if-chain. -/
def OutputDelays.timingSense (d : OutputDelays) : TimingSense :=
  if d.rise_rise && d.rise_fall && d.fall_rise && d.fall_fall then
    TimingSense.non_unate
  else if d.rise_rise && d.fall_fall && !d.rise_fall && !d.fall_rise then
    TimingSense.positive_unate
  else if d.rise_fall && d.fall_rise && !d.rise_rise && !d.fall_fall then
    TimingSense.negative_unate
  else if d.rise_rise || d.rise_fall || d.fall_rise || d.fall_fall then
    TimingSense.non_unate
  else
    TimingSense.none

/-- C1: the unateness classification of the accumulated 2x2 existence matrix
is: non-unate when all four entries are true; positive-unate when exactly the
direct terms rise→rise and fall→fall hold and both cross terms are false;
negative-unate when exactly the cross terms hold and both direct terms are
false; non-unate for every other matrix with at least one true entry; and
none when all four entries are false. -/
theorem timingSense_classification (d : OutputDelays) :
    ((d.pathExists RiseFall.rise RiseFall.rise = true ∧
      d.pathExists RiseFall.rise RiseFall.fall = true ∧
      d.pathExists RiseFall.fall RiseFall.rise = true ∧
      d.pathExists RiseFall.fall RiseFall.fall = true) →
      d.timingSense = TimingSense.non_unate) ∧
    ((d.pathExists RiseFall.rise RiseFall.rise = true ∧
      d.pathExists RiseFall.fall RiseFall.fall = true ∧
      d.pathExists RiseFall.rise RiseFall.fall = false ∧
      d.pathExists RiseFall.fall RiseFall.rise = false) →
      d.timingSense = TimingSense.positive_unate) ∧
    ((d.pathExists RiseFall.rise RiseFall.fall = true ∧
      d.pathExists RiseFall.fall RiseFall.rise = true ∧
      d.pathExists RiseFall.rise RiseFall.rise = false ∧
      d.pathExists RiseFall.fall RiseFall.fall = false) →
      d.timingSense = TimingSense.negative_unate) ∧
    (((d.pathExists RiseFall.rise RiseFall.rise ||
       d.pathExists RiseFall.rise RiseFall.fall ||
       d.pathExists RiseFall.fall RiseFall.rise ||
       d.pathExists RiseFall.fall RiseFall.fall) = true ∧
      ¬ (d.pathExists RiseFall.rise RiseFall.rise = true ∧
         d.pathExists RiseFall.fall RiseFall.fall = true ∧
         d.pathExists RiseFall.rise RiseFall.fall = false ∧
         d.pathExists RiseFall.fall RiseFall.rise = false) ∧
      ¬ (d.pathExists RiseFall.rise RiseFall.fall = true ∧
         d.pathExists RiseFall.fall RiseFall.rise = true ∧
         d.pathExists RiseFall.rise RiseFall.rise = false ∧
         d.pathExists RiseFall.fall RiseFall.fall = false)) →
      d.timingSense = TimingSense.non_unate) ∧
    ((d.pathExists RiseFall.rise RiseFall.rise = false ∧
      d.pathExists RiseFall.rise RiseFall.fall = false ∧
      d.pathExists RiseFall.fall RiseFall.rise = false ∧
      d.pathExists RiseFall.fall RiseFall.fall = false) →
      d.timingSense = TimingSense.none) := by
  obtain ⟨dl, a, b, c, e⟩ := d
  cases a <;> cases b <;> cases c <;> cases e <;>
    simp [OutputDelays.timingSense, OutputDelays.pathExists]

/-- Concrete instantiation of the classification theorem: the all-true matrix
classifies as non-unate, and the clean positive pattern as positive-unate. -/
theorem timingSense_classification_witness :
    OutputDelays.timingSense ⟨RiseFallMinMax.empty, true, true, true, true⟩ =
      TimingSense.non_unate ∧
    OutputDelays.timingSense ⟨RiseFallMinMax.empty, true, false, false, true⟩ =
      TimingSense.positive_unate :=
  ⟨(timingSense_classification ⟨RiseFallMinMax.empty, true, true, true, true⟩).1
      (by decide),
   (timingSense_classification
      ⟨RiseFallMinMax.empty, true, false, false, true⟩).2.1 (by decide)⟩

/-! ### Scalar model construction -/

/-- Scale factor kinds used by the scalar model builders. -/
inductive ScaleFactorType
  | setup
  | hold
  | cell
deriving DecidableEq, Repr

/-- The output library, as far as the extractor reads it: whether the named
"scalar" table template is present. -/
structure LibraryC where
  scalar_template : Option Unit
deriving DecidableEq, Repr

/-- A synthesized timing model: either a checking model wrapping one constant
margin table (`Table0`), or a gate model pairing a constant delay table with a
constant slew table. `tmpl_found` records whether `findTableTemplate`
returned the "scalar" template. -/
inductive TimingModelC
  | check (margin : Int) (scale : ScaleFactorType) (rf : RiseFall) (tmpl_found : Bool)
  | gate (delay : Int) (slew : Int) (rf : RiseFall) (tmpl_found : Bool)
deriving DecidableEq, Repr

/-- `MakeTimingModel::makeScalarCheckModel`: wrap a single margin value in a
one-entry constant table (`Table0`) with the library's "scalar" template. -/
def makeScalarCheckModel (lib : LibraryC) (value : Int)
    (scale : ScaleFactorType) (rf : RiseFall) : TimingModelC :=
  TimingModelC.check value scale rf lib.scalar_template.isSome

/-- `MakeTimingModel::makeScalarGateModel`: wrap a delay and a slew value in
one-entry constant tables, paired into a gate model. -/
def makeScalarGateModel (lib : LibraryC) (delay : Int) (slew : Int)
    (rf : RiseFall) : TimingModelC :=
  TimingModelC.gate delay slew rf lib.scalar_template.isSome

/-- Modelled from the spec: `findTableTemplate` and the fatal handling of a
missing "scalar" template live in collaborator library code not under src/;
per the spec the builder fails exactly when the scalar template is absent
(a configuration precondition), and otherwise returns the constant model. -/
def makeScalarCheckModelChecked (lib : LibraryC) (value : Int)
    (scale : ScaleFactorType) (rf : RiseFall) : Option TimingModelC :=
  match lib.scalar_template with
  | Option.some _ => Option.some (makeScalarCheckModel lib value scale rf)
  | Option.none => Option.none

/-- Modelled from the spec: gate-model counterpart of
`makeScalarCheckModelChecked`; fails exactly when the scalar template is
absent, else returns the delay/slew gate model. -/
def makeScalarGateModelChecked (lib : LibraryC) (delay : Int) (slew : Int)
    (rf : RiseFall) : Option TimingModelC :=
  match lib.scalar_template with
  | Option.some _ => Option.some (makeScalarGateModel lib delay slew rf)
  | Option.none => Option.none

/-- C9: the scalar model builders fail exactly when the "scalar" table
template is absent from the library; when it is present they return, for any
input value, the one-entry constant check model (resp. the gate model pairing
a delay sub-model with a slew sub-model) and do not fail. -/
theorem scalar_model_builder_fails_iff_template_absent (lib : LibraryC)
    (value delay slew : Int) (scale : ScaleFactorType) (rf : RiseFall) :
    ((makeScalarCheckModelChecked lib value scale rf).isNone ↔
      lib.scalar_template.isNone) ∧
    ((makeScalarGateModelChecked lib delay slew rf).isNone ↔
      lib.scalar_template.isNone) ∧
    (lib.scalar_template.isSome = true →
      makeScalarCheckModelChecked lib value scale rf =
        Option.some (TimingModelC.check value scale rf true) ∧
      makeScalarGateModelChecked lib delay slew rf =
        Option.some (TimingModelC.gate delay slew rf true)) := by
  obtain ⟨tpl⟩ := lib
  cases tpl <;>
    simp [makeScalarCheckModelChecked, makeScalarGateModelChecked,
      makeScalarCheckModel, makeScalarGateModel]

/-- Concrete instantiation of the scalar-builder theorem: with the template
present, both builders succeed with the constant models. -/
theorem scalar_model_builder_witness :
    makeScalarCheckModelChecked ⟨Option.some ()⟩ 7 ScaleFactorType.setup
        RiseFall.rise =
      Option.some (TimingModelC.check 7 ScaleFactorType.setup RiseFall.rise true) ∧
    makeScalarGateModelChecked ⟨Option.some ()⟩ 3 4 RiseFall.rise =
      Option.some (TimingModelC.gate 3 4 RiseFall.rise true) :=
  (scalar_model_builder_fails_iff_template_absent ⟨Option.some ()⟩ 7 3 4
      ScaleFactorType.setup RiseFall.rise).2.2 (by decide)

/-! ### Clocks, clock edges and accumulated check margins -/

/-- A design clock: an identity plus its source pins. -/
structure Clock where
  id : Nat
  pins : List Nat
deriving DecidableEq, Repr

/-- A clock edge: a clock plus one of its transitions. -/
structure ClockEdge where
  clk : Clock
  transition : RiseFall
deriving DecidableEq, Repr

/-- `ClockMargins`: map from clock edge to the accumulated margin bundle,
modelled as an association list with `std::map` semantics. -/
abbrev ClockMargins := List (ClockEdge × RiseFallMinMax)

/-- Map read with `std::map::operator[]` semantics: a missing key reads as a
default-constructed (empty) bundle. -/
def cmGet : ClockMargins → ClockEdge → RiseFallMinMax
  | [], _ => RiseFallMinMax.empty
  | (ce', v') :: rest, ce =>
    if ce' = ce then v' else cmGet rest ce

/-- Map write with `std::map::operator[]` semantics: replace the entry if the
key is present, append it otherwise. -/
def cmSet : ClockMargins → ClockEdge → RiseFallMinMax → ClockMargins
  | [], ce, v => [(ce, v)]
  | (ce', v') :: rest, ce, v =>
    if ce' = ce then (ce, v) :: rest else (ce', v') :: cmSet rest ce v

theorem cmGet_cmSet_same (cm : ClockMargins) (ce : ClockEdge)
    (v : RiseFallMinMax) : cmGet (cmSet cm ce v) ce = v := by
  induction cm with
  | nil => simp [cmGet, cmSet]
  | cons hd tl ih =>
    obtain ⟨ce', v'⟩ := hd
    by_cases h : ce' = ce <;> simp [cmGet, cmSet, h, ih]

theorem cmGet_cmSet_other (cm : ClockMargins) (ce ce' : ClockEdge)
    (v : RiseFallMinMax) (h : ce' ≠ ce) :
    cmGet (cmSet cm ce v) ce' = cmGet cm ce' := by
  have h2 : ce ≠ ce' := Ne.symm h
  induction cm with
  | nil => simp [cmGet, cmSet, h2]
  | cons hd tl ih =>
    obtain ⟨ce0, v0⟩ := hd
    by_cases h0 : ce0 = ce
    · subst h0
      simp [cmGet, cmSet, h2]
    · simp only [cmSet, if_neg h0]
      by_cases h1 : ce0 = ce' <;> simp [cmGet, h1, ih]

/-- A check path end, as far as `MakeEndTimingArcs::visit` reads it: target
clock edge, analysis extreme, data arrival, target-clock latency and timing
check margin. -/
structure PathEndC where
  tgt_clk_edge : ClockEdge
  min_max : MinMax
  data_arrival : Int
  clk_latency : Int
  check_margin : Int
deriving DecidableEq, Repr

/-- `MakeEndTimingArcs::visit`: compute
`margin = data_arrival - clk_latency + check_setup` and store it into
`margins_[tgt_clk_edge]` at the (current input transition, min/max) slot.
The visitor's `input_rf_` state is passed explicitly. -/
def MakeEndTimingArcs.visit (margins : ClockMargins) (input_rf : RiseFall)
    (pe : PathEndC) : ClockMargins :=
  let margin := pe.data_arrival - pe.clk_latency + pe.check_margin
  cmSet margins pe.tgt_clk_edge
    ((cmGet margins pe.tgt_clk_edge).setValue input_rf pe.min_max margin)

/-- C3: visiting a check path end records
`data_arrival - target_clock_latency + check_margin` into the
(target clock edge, input transition, min/max) slot, overwriting whatever the
slot held before (last write wins, for any prior contents and in particular
after an earlier visit to the same slot), and leaves every other slot and
every other clock edge unchanged. -/
theorem visit_records_margin (margins : ClockMargins) (input_rf : RiseFall)
    (pe : PathEndC) :
    ((cmGet (MakeEndTimingArcs.visit margins input_rf pe) pe.tgt_clk_edge).value
        input_rf pe.min_max =
      Option.some (pe.data_arrival - pe.clk_latency + pe.check_margin)) ∧
    (∀ pe' : PathEndC, pe'.tgt_clk_edge = pe.tgt_clk_edge →
      pe'.min_max = pe.min_max →
      (cmGet (MakeEndTimingArcs.visit
          (MakeEndTimingArcs.visit margins input_rf pe') input_rf pe)
          pe.tgt_clk_edge).value input_rf pe.min_max =
        Option.some (pe.data_arrival - pe.clk_latency + pe.check_margin)) ∧
    (∀ rf' mm', (rf' ≠ input_rf ∨ mm' ≠ pe.min_max) →
      (cmGet (MakeEndTimingArcs.visit margins input_rf pe) pe.tgt_clk_edge).value
          rf' mm' =
        (cmGet margins pe.tgt_clk_edge).value rf' mm') ∧
    (∀ ce', ce' ≠ pe.tgt_clk_edge →
      cmGet (MakeEndTimingArcs.visit margins input_rf pe) ce' =
        cmGet margins ce') := by
  obtain ⟨tce, tmm, da, cl, cs⟩ := pe
  refine ⟨?_, ?_, ?_, ?_⟩
  · simp only [MakeEndTimingArcs.visit, cmGet_cmSet_same]
    cases input_rf <;> cases tmm <;>
      simp [RiseFallMinMax.setValue, RiseFallMinMax.value]
  · intro pe' h1 h2
    simp only [MakeEndTimingArcs.visit, cmGet_cmSet_same]
    cases input_rf <;> cases tmm <;>
      simp [RiseFallMinMax.setValue, RiseFallMinMax.value]
  · intro rf' mm' h
    simp only [MakeEndTimingArcs.visit, cmGet_cmSet_same]
    rcases h with h | h
    · cases input_rf <;> cases rf' <;> cases tmm <;> cases mm' <;>
        simp_all [RiseFallMinMax.setValue, RiseFallMinMax.value]
    · cases input_rf <;> cases rf' <;> cases tmm <;> cases mm' <;>
        simp_all [RiseFallMinMax.setValue, RiseFallMinMax.value]
  · intro ce' h
    exact cmGet_cmSet_other margins tce ce' _ h

/-- Concrete instantiation of the visit theorem: visiting twice at the same
slot keeps only the second margin (10 - 2 + 1 = 9), discarding the first. -/
theorem visit_records_margin_witness :
    (cmGet (MakeEndTimingArcs.visit
        (MakeEndTimingArcs.visit []
          RiseFall.rise ⟨⟨⟨0, []⟩, RiseFall.rise⟩, MinMax.max, 100, 0, 0⟩)
        RiseFall.rise ⟨⟨⟨0, []⟩, RiseFall.rise⟩, MinMax.max, 10, 2, 1⟩)
      ⟨⟨0, []⟩, RiseFall.rise⟩).value RiseFall.rise MinMax.max =
      Option.some 9 :=
  (visit_records_margin [] RiseFall.rise
      ⟨⟨⟨0, []⟩, RiseFall.rise⟩, MinMax.max, 10, 2, 1⟩).2.1
    ⟨⟨⟨0, []⟩, RiseFall.rise⟩, MinMax.max, 100, 0, 0⟩ rfl rfl

/-! ### Environment: top-level pins and search-engine collaborators -/

/-- A top-level pin of the analyzed block: identity, direction flags and
whether it is a clock source. The boundary port created for it by the cell
builder is identified by the same id (`modelPort`). -/
structure PinC where
  id : Nat
  is_input : Bool
  is_output : Bool
  is_clock_src : Bool
deriving DecidableEq, Repr

/-- The parameters the extractor passes to `Sta::findPathEnds` for a
clock→output query: exception scope from one clock edge to one output
pin/transition, corner, min/max extreme, and the two result-count limits
(group count and endpoint count). -/
structure QueryC where
  from_clk : Clock
  from_rf : RiseFall
  to_pin : Nat
  to_rf : RiseFall
  corner : Nat
  min_max : MinMax
  group_count : Nat
  endpoint_count : Nat
deriving DecidableEq, Repr

/-- What the extractor reads from a path end returned by `findPathEnds`:
the path's arrival and slew. -/
structure PathEndArrC where
  arrival : Int
  slew : Int
deriving DecidableEq, Repr

/-- An arrival path at an output load vertex, as enumerated by
`VertexPathIterator`: whether it matches the active scoped filter
(`Search::matchesFilter`), its transition, min/max and arrival. -/
structure PathC where
  matches_filter : Bool
  transition : RiseFall
  min_max : MinMax
  arrival : Int
deriving DecidableEq, Repr

/-- The fixed design data and collaborator oracles the extractor drives:
top-level pins, design clocks, the default arrival clock identity, the
corner, the library (for the scalar template), the measured slew per output
vertex and transition, and the three search-engine result oracles. -/
structure EnvC where
  top_pins : List PinC
  clocks : List Clock
  default_arrival_clk : Nat
  default_arrival_rf : RiseFall
  corner : Nat
  lib : LibraryC
  slew : Nat → RiseFall → Int
  check_ends : Nat → RiseFall → List PathEndC
  out_paths : Nat → RiseFall → Nat → List PathC
  ends_query : QueryC → List PathEndArrC

/-! ### Output-pin delay accumulation (`findOutputDelays`) -/

/-- `OutputPinDelays`: map from output pin to its `OutputDelays`, modelled as
an association list with `std::map` semantics. -/
abbrev OutputPinDelays := List (Nat × OutputDelays)

/-- Map read with `std::map::operator[]` semantics: a missing key reads as a
default-constructed `OutputDelays`. -/
def opdGet : OutputPinDelays → Nat → OutputDelays
  | [], _ => OutputDelays.empty
  | (p', d') :: rest, p =>
    if p' = p then d' else opdGet rest p

/-- Map write with `std::map::operator[]` semantics. -/
def opdSet : OutputPinDelays → Nat → OutputDelays → OutputPinDelays
  | [], p, d => [(p, d)]
  | (p', d') :: rest, p, d =>
    if p' = p then (p, d) :: rest else (p', d') :: opdSet rest p d

theorem opdGet_opdSet_same (m : OutputPinDelays) (p : Nat) (d : OutputDelays) :
    opdGet (opdSet m p d) p = d := by
  induction m with
  | nil => simp [opdGet, opdSet]
  | cons hd tl ih =>
    obtain ⟨p', d'⟩ := hd
    by_cases h : p' = p <;> simp [opdGet, opdSet, h, ih]

theorem opdGet_opdSet_other (m : OutputPinDelays) (p p' : Nat)
    (d : OutputDelays) (h : p' ≠ p) :
    opdGet (opdSet m p d) p' = opdGet m p' := by
  have h2 : p ≠ p' := Ne.symm h
  induction m with
  | nil => simp [opdGet, opdSet, h2]
  | cons hd tl ih =>
    obtain ⟨p0, d0⟩ := hd
    by_cases h0 : p0 = p
    · subst h0
      simp [opdGet, opdSet, h2]
    · simp only [opdSet, if_neg h0]
      by_cases h1 : p0 = p' <;> simp [opdGet, h1, ih]

/-- The body of the `VertexPathIterator` loop in
`MakeTimingModel::findOutputDelays`: a path matching the active filter merges
its arrival into the (output transition, min/max) delay slot and sets the
(input transition, output transition) existence entry; any other path leaves
everything unchanged. -/
def recordOutputPath (input_rf : RiseFall) (opd : OutputPinDelays)
    (out_pin : Nat) (p : PathC) : OutputPinDelays :=
  if p.matches_filter then
    let d := opdGet opd out_pin
    opdSet opd out_pin
      ((d.withDelays (d.delays.mergeValue p.transition p.min_max p.arrival)).setPathExists
        input_rf p.transition)
  else
    opd

/-- `MakeTimingModel::findOutputDelays`: for every top-level output pin,
fold `recordOutputPath` over the arrival paths currently at its load vertex
under the active (input pin, input transition) filter. -/
def findOutputDelays (env : EnvC) (input_pin : Nat) (input_rf : RiseFall)
    (opd : OutputPinDelays) : OutputPinDelays :=
  env.top_pins.foldl
    (fun acc pin =>
      if pin.is_output then
        (env.out_paths input_pin input_rf pin.id).foldl
          (fun acc2 p => recordOutputPath input_rf acc2 pin.id p) acc
      else
        acc)
    opd

theorem setValue_value_same (m : RiseFallMinMax) (rf : RiseFall) (mm : MinMax)
    (v : Int) : (m.setValue rf mm v).value rf mm = Option.some v := by
  cases rf <;> cases mm <;>
    simp [RiseFallMinMax.setValue, RiseFallMinMax.value]

theorem setValue_value_other (m : RiseFallMinMax) (rf : RiseFall) (mm : MinMax)
    (v : Int) (rf' : RiseFall) (mm' : MinMax) (h : rf' ≠ rf ∨ mm' ≠ mm) :
    (m.setValue rf mm v).value rf' mm' = m.value rf' mm' := by
  rcases h with h | h <;> cases rf <;> cases mm <;> cases rf' <;> cases mm' <;>
    simp_all [RiseFallMinMax.setValue, RiseFallMinMax.value]

theorem mergeValue_value_same (m : RiseFallMinMax) (rf : RiseFall) (mm : MinMax)
    (v : Int) :
    (m.mergeValue rf mm v).value rf mm =
      Option.some
        (match m.value rf mm with
         | Option.some prev => mm.worstOf prev v
         | Option.none => v) := by
  rcases hv : m.value rf mm with _ | prev <;>
    simp only [RiseFallMinMax.mergeValue, hv, setValue_value_same]

theorem mergeValue_value_other (m : RiseFallMinMax) (rf : RiseFall)
    (mm : MinMax) (v : Int) (rf' : RiseFall) (mm' : MinMax)
    (h : rf' ≠ rf ∨ mm' ≠ mm) :
    (m.mergeValue rf mm v).value rf' mm' = m.value rf' mm' := by
  rcases hv : m.value rf mm with _ | prev
  · simp only [RiseFallMinMax.mergeValue, hv]
    exact setValue_value_other m rf mm v rf' mm' h
  · simp only [RiseFallMinMax.mergeValue, hv]
    exact setValue_value_other m rf mm _ rf' mm' h

theorem setPathExists_delays (d : OutputDelays) (irf orf : RiseFall) :
    (d.setPathExists irf orf).delays = d.delays := by
  cases irf <;> cases orf <;> simp [OutputDelays.setPathExists]

theorem setPathExists_pathExists_same (d : OutputDelays) (irf orf : RiseFall) :
    (d.setPathExists irf orf).pathExists irf orf = true := by
  cases irf <;> cases orf <;>
    simp [OutputDelays.setPathExists, OutputDelays.pathExists]

theorem setPathExists_pathExists_other (d : OutputDelays) (irf orf irf' orf' : RiseFall)
    (h : irf' ≠ irf ∨ orf' ≠ orf) :
    (d.setPathExists irf orf).pathExists irf' orf' = d.pathExists irf' orf' := by
  rcases h with h | h <;> cases irf <;> cases orf <;> cases irf' <;> cases orf' <;>
    simp_all [OutputDelays.setPathExists, OutputDelays.pathExists]

theorem withDelays_pathExists (d : OutputDelays) (ds : RiseFallMinMax)
    (irf orf : RiseFall) :
    (d.withDelays ds).pathExists irf orf = d.pathExists irf orf := by
  cases irf <;> cases orf <;>
    simp [OutputDelays.withDelays, OutputDelays.pathExists]

/-- C4: processing one arrival path during `findOutputDelays`: when the path
matches the active scoped filter, the delay slot for (output transition,
min/max of the path) becomes the MinMax-consistent worst of the previously
stored value and the path's arrival (the arrival itself when the slot was
empty), the existence entry for (input transition, output transition) becomes
true, all other delay slots, existence entries and output pins are unchanged;
when the path does not match the filter, nothing changes at all.
`findOutputDelays` is exactly the fold of this step over the arrival paths of
every top-level output pin. -/
theorem findOutputDelays_merge_worst (env : EnvC) (input_pin : Nat)
    (input_rf : RiseFall) (opd : OutputPinDelays) (out_pin : Nat) (p : PathC) :
    (p.matches_filter = true →
      ((opdGet (recordOutputPath input_rf opd out_pin p) out_pin).delays.value
          p.transition p.min_max =
        Option.some
          (match (opdGet opd out_pin).delays.value p.transition p.min_max with
           | Option.some prev => p.min_max.worstOf prev p.arrival
           | Option.none => p.arrival)) ∧
      ((opdGet (recordOutputPath input_rf opd out_pin p) out_pin).pathExists
          input_rf p.transition = true) ∧
      (∀ orf mm, orf ≠ p.transition ∨ mm ≠ p.min_max →
        (opdGet (recordOutputPath input_rf opd out_pin p) out_pin).delays.value
            orf mm =
          (opdGet opd out_pin).delays.value orf mm) ∧
      (∀ irf orf, irf ≠ input_rf ∨ orf ≠ p.transition →
        (opdGet (recordOutputPath input_rf opd out_pin p) out_pin).pathExists
            irf orf =
          (opdGet opd out_pin).pathExists irf orf) ∧
      (∀ pin', pin' ≠ out_pin →
        opdGet (recordOutputPath input_rf opd out_pin p) pin' =
          opdGet opd pin')) ∧
    (p.matches_filter = false →
      recordOutputPath input_rf opd out_pin p = opd) ∧
    (findOutputDelays env input_pin input_rf opd =
      env.top_pins.foldl
        (fun acc pin =>
          if pin.is_output then
            (env.out_paths input_pin input_rf pin.id).foldl
              (fun acc2 q => recordOutputPath input_rf acc2 pin.id q) acc
          else
            acc)
        opd) := by
  obtain ⟨mf, prf, pmm, parr⟩ := p
  refine ⟨?_, ?_, rfl⟩
  · intro hmf
    subst hmf
    have hrec :
        recordOutputPath input_rf opd out_pin ⟨true, prf, pmm, parr⟩ =
          opdSet opd out_pin
            (((opdGet opd out_pin).withDelays
                ((opdGet opd out_pin).delays.mergeValue prf pmm parr)).setPathExists
              input_rf prf) := by
      simp [recordOutputPath]
    refine ⟨?_, ?_, ?_, ?_, ?_⟩
    · rw [hrec, opdGet_opdSet_same, setPathExists_delays,
        OutputDelays.withDelays, mergeValue_value_same]
    · rw [hrec, opdGet_opdSet_same, setPathExists_pathExists_same]
    · intro orf mm h
      rw [hrec, opdGet_opdSet_same, setPathExists_delays,
        OutputDelays.withDelays, mergeValue_value_other _ _ _ _ _ _ h]
    · intro irf orf h
      rw [hrec, opdGet_opdSet_same, setPathExists_pathExists_other _ _ _ _ _ h,
        withDelays_pathExists]
    · intro pin' h
      rw [hrec]
      exact opdGet_opdSet_other opd out_pin pin' _ h
  · intro hmf
    have hmf' : mf = false := hmf
    subst hmf'
    simp [recordOutputPath]

/-- Concrete instantiation of the merge theorem: merging a second, larger
max-extreme arrival into an occupied slot keeps the worst (larger) value. -/
theorem findOutputDelays_merge_worst_witness :
    (opdGet
        (recordOutputPath RiseFall.rise
          (recordOutputPath RiseFall.rise [] 5
            ⟨true, RiseFall.rise, MinMax.max, 4⟩)
          5 ⟨true, RiseFall.rise, MinMax.max, 9⟩)
        5).delays.value RiseFall.rise MinMax.max = Option.some 9 := by
  have h :=
    (findOutputDelays_merge_worst
        ⟨[], [], 0, RiseFall.rise, 0, ⟨Option.none⟩, fun _ _ => 0,
          fun _ _ => [], fun _ _ _ => [], fun _ => []⟩
        0 RiseFall.rise
        (recordOutputPath RiseFall.rise [] 5 ⟨true, RiseFall.rise, MinMax.max, 4⟩)
        5 ⟨true, RiseFall.rise, MinMax.max, 9⟩).1 rfl
  refine h.1.trans ?_
  have h4 :
      (opdGet
          (recordOutputPath RiseFall.rise [] 5
            ⟨true, RiseFall.rise, MinMax.max, 4⟩)
          5).delays.value RiseFall.rise MinMax.max = Option.some 4 := by
    simp [recordOutputPath, opdGet, opdSet, OutputDelays.empty,
      OutputDelays.withDelays, OutputDelays.setPathExists,
      RiseFallMinMax.mergeValue, RiseFallMinMax.setValue,
      RiseFallMinMax.value, RiseFallMinMax.empty]
  rw [h4]
  decide

/-! ### Timing arcs of the synthesized model -/

/-- The roles the extractor tags arcs with. -/
inductive TimingRole
  | setup
  | hold
  | regClkToQ
  | comb
deriving DecidableEq, Repr

/-- `TimingArcAttrs`: the shared attribute bundle of one arc — one optional
model per transition plus an optional timing sense. -/
structure TimingArcAttrsC where
  rise_model : Option TimingModelC
  fall_model : Option TimingModelC
  sense : Option TimingSense
deriving DecidableEq, Repr

/-- A freshly constructed `TimingArcAttrs`: no models, no sense. -/
def emptyAttrs : TimingArcAttrsC :=
  ⟨Option.none, Option.none, Option.none⟩

/-- `TimingArcAttrs::setModel`: attach a model keyed by transition. -/
def attrsSetModel (a : TimingArcAttrsC) (rf : RiseFall) (m : TimingModelC) :
    TimingArcAttrsC :=
  match rf with
  | RiseFall.rise => { a with rise_model := Option.some m }
  | RiseFall.fall => { a with fall_model := Option.some m }

/-- `TimingArcAttrs::setTimingSense`. -/
def attrsSetTimingSense (a : TimingArcAttrsC) (s : TimingSense) :
    TimingArcAttrsC :=
  { a with sense := Option.some s }

/-- A timing arc of the synthesized boundary cell: driving port, receiving
port, the driving clock transition for from-transition arcs, role, and the
attribute bundle. Ports are identified by the id of their pin
(`modelPort` is a name lookup in the source). -/
structure ArcC where
  from_port : Nat
  to_port : Nat
  from_rf : Option RiseFall
  role : TimingRole
  attrs : TimingArcAttrsC
deriving DecidableEq, Repr

/-! ### Setup/hold arc synthesis (`makeSetupHoldTimingArcs`) -/

/-- The inner transition loop of `makeSetupHoldTimingArcs` for one min/max
extreme: for each input transition with a recorded margin, build a scalar
check model (setup scale for max, hold scale for min) and attach it to the
attribute bundle, which starts out null. -/
def buildCheckAttrs (lib : LibraryC) (margins : RiseFallMinMax) (mm : MinMax) :
    Option TimingArcAttrsC :=
  RiseFall.range.foldl
    (fun attrs input_rf =>
      match margins.value input_rf mm with
      | Option.some margin =>
        Option.some (attrsSetModel (attrs.getD emptyAttrs) input_rf
          (makeScalarCheckModel lib margin
            (if mm = MinMax.max then ScaleFactorType.setup else ScaleFactorType.hold)
            input_rf))
      | Option.none => attrs)
    Option.none

/-- The arcs `makeSetupHoldTimingArcs` emits for one (clock edge, min/max):
if the bundle is non-null, one checking arc from every pin of the clock to
the input's boundary port, with role setup for max and hold for min. -/
def edgeMinMaxArcs (lib : LibraryC) (input_pin : Nat) (ce : ClockEdge)
    (margins : RiseFallMinMax) (mm : MinMax) : List ArcC :=
  match buildCheckAttrs lib margins mm with
  | Option.some attrs =>
    ce.clk.pins.map (fun clk_pin =>
      { from_port := clk_pin, to_port := input_pin,
        from_rf := Option.some ce.transition,
        role := if mm = MinMax.max then TimingRole.setup else TimingRole.hold,
        attrs := attrs })
  | Option.none => []

/-- `MakeTimingModel::makeSetupHoldTimingArcs`: for every clock edge in the
accumulated margins and both min/max extremes, emit the corresponding
checking arcs. -/
def makeSetupHoldTimingArcs (lib : LibraryC) (input_pin : Nat)
    (clk_margins : ClockMargins) : List ArcC :=
  clk_margins.flatMap
    (fun p => MinMax.range.flatMap (fun mm => edgeMinMaxArcs lib input_pin p.1 p.2 mm))

/-- C2: for each clock edge of the accumulated margins and each min/max
extreme: when no input transition has a recorded margin, no arc is emitted
for that extreme; when at least one has, one checking arc is emitted from
every pin of the clock edge's clock to the input pin's boundary port,
carrying one scalar check model per recorded transition, with role setup
exactly when the extreme is max and hold exactly when it is min; and the
full synthesis is the union of these per-(edge, extreme) emissions. -/
theorem makeSetupHoldTimingArcs_emits (lib : LibraryC) (input_pin : Nat)
    (ce : ClockEdge) (margins : RiseFallMinMax) (mm : MinMax)
    (clk_margins : ClockMargins) :
    ((margins.value RiseFall.rise mm = Option.none ∧
      margins.value RiseFall.fall mm = Option.none) →
      edgeMinMaxArcs lib input_pin ce margins mm = []) ∧
    (((margins.value RiseFall.rise mm).isSome ∨
      (margins.value RiseFall.fall mm).isSome) →
      edgeMinMaxArcs lib input_pin ce margins mm =
        ce.clk.pins.map (fun clk_pin =>
          { from_port := clk_pin, to_port := input_pin,
            from_rf := Option.some ce.transition,
            role := if mm = MinMax.max then TimingRole.setup else TimingRole.hold,
            attrs :=
              { rise_model := (margins.value RiseFall.rise mm).map (fun v =>
                  TimingModelC.check v
                    (if mm = MinMax.max then ScaleFactorType.setup
                     else ScaleFactorType.hold)
                    RiseFall.rise lib.scalar_template.isSome),
                fall_model := (margins.value RiseFall.fall mm).map (fun v =>
                  TimingModelC.check v
                    (if mm = MinMax.max then ScaleFactorType.setup
                     else ScaleFactorType.hold)
                    RiseFall.fall lib.scalar_template.isSome),
                sense := Option.none } })) ∧
    (makeSetupHoldTimingArcs lib input_pin clk_margins =
      clk_margins.flatMap
        (fun p =>
          MinMax.range.flatMap (fun mm2 => edgeMinMaxArcs lib input_pin p.1 p.2 mm2))) := by
  refine ⟨?_, ?_, rfl⟩
  · intro h
    obtain ⟨h1, h2⟩ := h
    simp [edgeMinMaxArcs, buildCheckAttrs, RiseFall.range, h1, h2]
  · intro h
    rcases hr : margins.value RiseFall.rise mm with _ | vr <;>
      rcases hf : margins.value RiseFall.fall mm with _ | vf <;>
        simp_all [edgeMinMaxArcs, buildCheckAttrs, RiseFall.range,
          attrsSetModel, emptyAttrs, makeScalarCheckModel]

/-- Concrete instantiation of the setup/hold emission theorem: one recorded
rise margin at the max extreme yields one setup arc per clock pin. -/
theorem makeSetupHoldTimingArcs_emits_witness :
    edgeMinMaxArcs ⟨Option.some ()⟩ 7 ⟨⟨3, [1, 2]⟩, RiseFall.rise⟩
        ⟨Option.none, Option.some 5, Option.none, Option.none⟩ MinMax.max =
      [⟨1, 7, Option.some RiseFall.rise, TimingRole.setup,
        ⟨Option.some (TimingModelC.check 5 ScaleFactorType.setup RiseFall.rise true),
         Option.none, Option.none⟩⟩,
       ⟨2, 7, Option.some RiseFall.rise, TimingRole.setup,
        ⟨Option.some (TimingModelC.check 5 ScaleFactorType.setup RiseFall.rise true),
         Option.none, Option.none⟩⟩] := by
  have h :=
    (makeSetupHoldTimingArcs_emits ⟨Option.some ()⟩ 7 ⟨⟨3, [1, 2]⟩, RiseFall.rise⟩
        ⟨Option.none, Option.some 5, Option.none, Option.none⟩ MinMax.max []).2.1
      (Or.inl (by decide))
  rw [h]
  rfl

/-! ### Input→output arc synthesis (`makeInputOutputTimingArcs`) -/

/-- The inner transition loop of `makeInputOutputTimingArcs`: for each output
transition with a recorded worst max-extreme delay, build a scalar gate model
from that delay and the slew measured on the output vertex, and attach it to
the attribute bundle, which starts out null. -/
def buildGateAttrs (env : EnvC) (out_pin : Nat) (od : OutputDelays) :
    Option TimingArcAttrsC :=
  RiseFall.range.foldl
    (fun attrs output_rf =>
      match od.delays.value output_rf MinMax.max with
      | Option.some delay =>
        Option.some (attrsSetModel (attrs.getD emptyAttrs) output_rf
          (makeScalarGateModel env.lib delay (env.slew out_pin output_rf) output_rf))
      | Option.none => attrs)
    Option.none

/-- The arcs `makeInputOutputTimingArcs` emits for one recorded output pin:
if the bundle is non-null, one combinational arc tagged with the unateness
computed from the existence matrix; otherwise nothing. -/
def inputOutputArcsFor (env : EnvC) (input_pin out_pin : Nat)
    (od : OutputDelays) : List ArcC :=
  match buildGateAttrs env out_pin od with
  | Option.some attrs =>
    [{ from_port := input_pin, to_port := out_pin, from_rf := Option.none,
       role := TimingRole.comb,
       attrs := attrsSetTimingSense attrs od.timingSense }]
  | Option.none => []

/-- `MakeTimingModel::makeInputOutputTimingArcs`: iterate the per-output
delay map and emit the combinational arcs. -/
def makeInputOutputTimingArcs (env : EnvC) (input_pin : Nat)
    (opd : OutputPinDelays) : List ArcC :=
  opd.flatMap (fun p => inputOutputArcsFor env input_pin p.1 p.2)

theorem inputOutputArcsFor_to_port (env : EnvC) (ip op : Nat)
    (od : OutputDelays) (a : ArcC) (ha : a ∈ inputOutputArcsFor env ip op od) :
    a.to_port = op := by
  unfold inputOutputArcsFor at ha
  rcases h : buildGateAttrs env op od with _ | attrs <;> rw [h] at ha
  · simp at ha
  · simp at ha
    subst ha
    rfl

/-- C8: an output pin with no entry in the per-output delay map gets no
combinational arc at all (absence, not a zero-delay arc); and an entry whose
delay matrix records no max-extreme value for either output transition —
every query having come back empty — is skipped rather than emitted. -/
theorem makeInputOutputTimingArcs_skips_empty (env : EnvC)
    (input_pin out_pin : Nat) (opd : OutputPinDelays) (od : OutputDelays) :
    ((∀ q ∈ opd, Prod.fst q ≠ out_pin) →
      ∀ a ∈ makeInputOutputTimingArcs env input_pin opd, a.to_port ≠ out_pin) ∧
    ((od.delays.value RiseFall.rise MinMax.max = Option.none ∧
      od.delays.value RiseFall.fall MinMax.max = Option.none) →
      inputOutputArcsFor env input_pin out_pin od = []) := by
  constructor
  · intro hk a ha
    obtain ⟨q, hq, ha2⟩ := List.mem_flatMap.mp ha
    rw [inputOutputArcsFor_to_port env input_pin q.1 q.2 a ha2]
    exact hk q hq
  · intro h
    obtain ⟨h1, h2⟩ := h
    simp [inputOutputArcsFor, buildGateAttrs, RiseFall.range, h1, h2]

/-- Concrete instantiation of the skip theorem: an empty delay map emits no
arc toward pin 1, and an entry with no recorded max delay emits nothing. -/
theorem makeInputOutputTimingArcs_skips_empty_witness :
    (∀ a ∈ makeInputOutputTimingArcs
        ⟨[], [], 0, RiseFall.rise, 0, ⟨Option.none⟩, fun _ _ => 0,
          fun _ _ => [], fun _ _ _ => [], fun _ => []⟩ 0 [], a.to_port ≠ 1) ∧
    inputOutputArcsFor
        ⟨[], [], 0, RiseFall.rise, 0, ⟨Option.none⟩, fun _ _ => 0,
          fun _ _ => [], fun _ _ _ => [], fun _ => []⟩ 0 1 OutputDelays.empty =
      [] :=
  ⟨(makeInputOutputTimingArcs_skips_empty
      ⟨[], [], 0, RiseFall.rise, 0, ⟨Option.none⟩, fun _ _ => 0,
        fun _ _ => [], fun _ _ _ => [], fun _ => []⟩
      0 1 [] OutputDelays.empty).1 (by simp),
   (makeInputOutputTimingArcs_skips_empty
      ⟨[], [], 0, RiseFall.rise, 0, ⟨Option.none⟩, fun _ _ => 0,
        fun _ _ => [], fun _ _ _ => [], fun _ => []⟩
      0 1 [] OutputDelays.empty).2 ⟨rfl, rfl⟩⟩

/-- C7 counterexample: an output pin whose existence matrix records exactly
one of the direct combinations (rise→rise only, fall→fall absent) and
neither cross term, with a recorded max-extreme rise delay, gets its
combinational arc tagged non-unate by the source, not positive-unate as the
claim states. -/
theorem arc_sense_single_direct_counterexample :
    (OutputDelays.pathExists
        ⟨⟨Option.none, Option.some 5, Option.none, Option.none⟩,
         true, false, false, false⟩ RiseFall.rise RiseFall.rise = true ∧
     OutputDelays.pathExists
        ⟨⟨Option.none, Option.some 5, Option.none, Option.none⟩,
         true, false, false, false⟩ RiseFall.fall RiseFall.fall = false ∧
     OutputDelays.pathExists
        ⟨⟨Option.none, Option.some 5, Option.none, Option.none⟩,
         true, false, false, false⟩ RiseFall.rise RiseFall.fall = false ∧
     OutputDelays.pathExists
        ⟨⟨Option.none, Option.some 5, Option.none, Option.none⟩,
         true, false, false, false⟩ RiseFall.fall RiseFall.rise = false) ∧
    inputOutputArcsFor
        ⟨[], [], 0, RiseFall.rise, 0, ⟨Option.none⟩, fun _ _ => 0,
          fun _ _ => [], fun _ _ _ => [], fun _ => []⟩ 0 1
        ⟨⟨Option.none, Option.some 5, Option.none, Option.none⟩,
         true, false, false, false⟩ =
      [⟨0, 1, Option.none, TimingRole.comb,
        ⟨Option.some (TimingModelC.gate 5 0 RiseFall.rise false), Option.none,
         Option.some TimingSense.non_unate⟩⟩] ∧
    (∀ a ∈ inputOutputArcsFor
        ⟨[], [], 0, RiseFall.rise, 0, ⟨Option.none⟩, fun _ _ => 0,
          fun _ _ => [], fun _ _ _ => [], fun _ => []⟩ 0 1
        ⟨⟨Option.none, Option.some 5, Option.none, Option.none⟩,
         true, false, false, false⟩,
      a.attrs.sense ≠ Option.some TimingSense.positive_unate) := by
  refine ⟨by decide, by decide, by decide⟩

/-- C7 (amended): an output pin whose existence matrix records both direct
combinations (rise→rise and fall→fall) and neither cross term gets its
combinational arc tagged positive-unate; symmetrically, both cross terms and
neither direct term give negative-unate. -/
theorem inputOutputArc_sense_clean (env : EnvC) (ip op : Nat)
    (od : OutputDelays) :
    ((od.pathExists RiseFall.rise RiseFall.rise = true ∧
      od.pathExists RiseFall.fall RiseFall.fall = true ∧
      od.pathExists RiseFall.rise RiseFall.fall = false ∧
      od.pathExists RiseFall.fall RiseFall.rise = false) →
      ∀ a ∈ inputOutputArcsFor env ip op od,
        a.attrs.sense = Option.some TimingSense.positive_unate) ∧
    ((od.pathExists RiseFall.rise RiseFall.fall = true ∧
      od.pathExists RiseFall.fall RiseFall.rise = true ∧
      od.pathExists RiseFall.rise RiseFall.rise = false ∧
      od.pathExists RiseFall.fall RiseFall.fall = false) →
      ∀ a ∈ inputOutputArcsFor env ip op od,
        a.attrs.sense = Option.some TimingSense.negative_unate) := by
  obtain ⟨dl, x1, x2, x3, x4⟩ := od
  constructor
  · intro h a ha
    simp only [OutputDelays.pathExists] at h
    obtain ⟨h1, h2, h3, h4⟩ := h
    subst h1; subst h2; subst h3; subst h4
    unfold inputOutputArcsFor at ha
    rcases hb : buildGateAttrs env op ⟨dl, true, false, false, true⟩ with _ | attrs <;>
      rw [hb] at ha
    · simp at ha
    · simp at ha
      subst ha
      simp [attrsSetTimingSense, OutputDelays.timingSense]
  · intro h a ha
    simp only [OutputDelays.pathExists] at h
    obtain ⟨h1, h2, h3, h4⟩ := h
    subst h1; subst h2; subst h3; subst h4
    unfold inputOutputArcsFor at ha
    rcases hb : buildGateAttrs env op ⟨dl, false, true, true, false⟩ with _ | attrs <;>
      rw [hb] at ha
    · simp at ha
    · simp at ha
      subst ha
      simp [attrsSetTimingSense, OutputDelays.timingSense]

/-- Concrete instantiation of the clean-pattern arc theorem: both direct
combinations recorded, neither cross term → the emitted arc is tagged
positive-unate. -/
theorem inputOutputArc_sense_clean_witness :
    ∀ a ∈ inputOutputArcsFor
        ⟨[], [], 0, RiseFall.rise, 0, ⟨Option.none⟩, fun _ _ => 0,
          fun _ _ => [], fun _ _ _ => [], fun _ => []⟩ 0 1
        ⟨⟨Option.none, Option.some 5, Option.none, Option.some 7⟩,
         true, false, false, true⟩,
      a.attrs.sense = Option.some TimingSense.positive_unate :=
  (inputOutputArc_sense_clean
      ⟨[], [], 0, RiseFall.rise, 0, ⟨Option.none⟩, fun _ _ => 0,
        fun _ _ => [], fun _ _ _ => [], fun _ => []⟩ 0 1
      ⟨⟨Option.none, Option.some 5, Option.none, Option.some 7⟩,
       true, false, false, true⟩).1 (by decide)

/-! ### Mutable Sta/Sdc state and the transient constraints -/

/-- Key of a transient input-delay constraint as installed and removed by the
extractor: input pin, input transition, and the default arrival clock edge it
is relative to (the min/max set is `all` in both calls). -/
structure InKey where
  pin : Nat
  rf : RiseFall
  clk : Nat
  clk_rf : RiseFall
deriving DecidableEq, Repr

/-- Key of a transient output-delay constraint: output pin, output
transition, clock and clock transition. -/
structure OutKey where
  pin : Nat
  rf : RiseFall
  clk : Nat
  clk_rf : RiseFall
deriving DecidableEq, Repr

/-- The mutable constraint state the extractor touches: the installed
input-delay and output-delay constraints (key and value) and the clocks
marked propagated. -/
structure StaStateC where
  input_delays : List (InKey × Int)
  output_delays : List (OutKey × Int)
  propagated_clks : List Nat
deriving DecidableEq, Repr

/-- Modelled from the spec: `Sta::setInputDelay` (Sdc collaborator, not under
src/) attaches the input-delay constraint to the pin. -/
def setInputDelay (st : StaStateC) (k : InKey) (v : Int) : StaStateC :=
  { st with input_delays := (k, v) :: st.input_delays }

/-- Modelled from the spec: `Sta::removeInputDelay` detaches the input-delay
constraint with the given key. -/
def removeInputDelay (st : StaStateC) (k : InKey) : StaStateC :=
  { st with input_delays := st.input_delays.filter (fun kv => decide (kv.1 ≠ k)) }

/-- Modelled from the spec: `Sta::setOutputDelay` attaches the output-delay
constraint to the pin. -/
def setOutputDelay (st : StaStateC) (k : OutKey) (v : Int) : StaStateC :=
  { st with output_delays := (k, v) :: st.output_delays }

/-- Modelled from the spec: `Sta::removeOutputDelay` detaches the
output-delay constraint with the given key. -/
def removeOutputDelay (st : StaStateC) (k : OutKey) : StaStateC :=
  { st with output_delays := st.output_delays.filter (fun kv => decide (kv.1 ≠ k)) }

/-- Modelled from the spec: `Sta::setPropagatedClock` marks one clock
propagated; nothing in the extractor ever unmarks one. -/
def setPropagatedClock (st : StaStateC) (c : Clock) : StaStateC :=
  { st with propagated_clks := c.id :: st.propagated_clks }

/-! ### Input-driven propagation (`findTimingFromInputs`) -/

/-- One input-transition iteration of `findTimingFromInputs`: install the
transient zero input delay relative to the default arrival clock, run the
filtered search (its results surface through the environment oracles), visit
every check path end, collect the output delays, and remove the transient
input delay before the next iteration. -/
def inputRfStep (env : EnvC) (input_pin : Nat) (input_rf : RiseFall)
    (acc : StaStateC × ClockMargins × OutputPinDelays) :
    StaStateC × ClockMargins × OutputPinDelays :=
  let key : InKey :=
    ⟨input_pin, input_rf, env.default_arrival_clk, env.default_arrival_rf⟩
  let st1 := setInputDelay acc.1 key 0
  let margins1 := (env.check_ends input_pin input_rf).foldl
    (fun m pe => MakeEndTimingArcs.visit m input_rf pe) acc.2.1
  let opd1 := findOutputDelays env input_pin input_rf acc.2.2
  let st2 := removeInputDelay st1 key
  (st2, margins1, opd1)

/-- The per-input-pin body of `findTimingFromInputs`: fresh margins and
output-delay map (the visitor's `setInputPin` clears its margins), both
transitions processed, then both arc syntheses. -/
def inputPinBody (env : EnvC) (pin_id : Nat) (st : StaStateC) :
    StaStateC × List ArcC :=
  let r := RiseFall.range.foldl
    (fun acc input_rf => inputRfStep env pin_id input_rf acc) (st, [], [])
  (r.1,
   makeSetupHoldTimingArcs env.lib pin_id r.2.1 ++
     makeInputOutputTimingArcs env pin_id r.2.2)

/-- `MakeTimingModel::findTimingFromInputs`: every top-level input pin that
is not a clock source. -/
def findTimingFromInputs (env : EnvC) (st : StaStateC) :
    StaStateC × List ArcC :=
  env.top_pins.foldl
    (fun acc pin =>
      if pin.is_input && !pin.is_clock_src then
        let r := inputPinBody env pin.id acc.1
        (r.1, acc.2 ++ r.2)
      else acc)
    (st, [])

/-! ### Clock→output arc synthesis (`findClkedOutputPaths`) -/

/-- One output-transition iteration of the innermost `findClkedOutputPaths`
loop: install the transient zero output delay for the output/transition
relative to the clock/transition, query `findPathEnds` with the exception
scope from that clock edge to that output pin/transition at the corner, the
max extreme and group/endpoint limits 1, turn the first returned end (if
any) into a scalar gate model, and remove the transient output delay
regardless of the outcome. -/
def clkedRfStep (env : EnvC) (out_pin : Nat) (clk : Clock)
    (clk_rf out_rf : RiseFall) (st : StaStateC) :
    StaStateC × QueryC × Option TimingModelC :=
  let key : OutKey := ⟨out_pin, out_rf, clk.id, clk_rf⟩
  let st1 := setOutputDelay st key 0
  let q : QueryC := ⟨clk, clk_rf, out_pin, out_rf, env.corner, MinMax.max, 1, 1⟩
  let m := match env.ends_query q with
    | e :: _ => Option.some (makeScalarGateModel env.lib e.arrival e.slew out_rf)
    | [] => Option.none
  let st2 := removeOutputDelay st1 key
  (st2, q, m)

/-- The per-(output pin, clock pin, clock transition) body of
`findClkedOutputPaths`: try both output transitions, accumulate found models
into the attribute bundle (null until the first model), and emit the
register-clock-to-output arc when the bundle is non-null. -/
def clkedClkRfBody (env : EnvC) (out_pin clk_pin : Nat) (clk : Clock)
    (clk_rf : RiseFall) (st : StaStateC) :
    StaStateC × List QueryC × List ArcC :=
  let r := RiseFall.range.foldl
    (fun (acc : StaStateC × List QueryC × Option TimingArcAttrsC) out_rf =>
      let s := clkedRfStep env out_pin clk clk_rf out_rf acc.1
      let attrs := match s.2.2 with
        | Option.some model =>
          Option.some (attrsSetModel (acc.2.2.getD emptyAttrs) out_rf model)
        | Option.none => acc.2.2
      (s.1, acc.2.1 ++ [s.2.1], attrs))
    (st, [], Option.none)
  let arcs := match r.2.2 with
    | Option.some attrs =>
      [{ from_port := clk_pin, to_port := out_pin,
         from_rf := Option.some clk_rf,
         role := TimingRole.regClkToQ, attrs := attrs }]
    | Option.none => []
  (r.1, r.2.1, arcs)

/-- `MakeTimingModel::findClkedOutputPaths`: every output pin, every design
clock, every pin of that clock, every clock transition. The returned query
log records every `findPathEnds` call made. -/
def findClkedOutputPaths (env : EnvC) (st : StaStateC) :
    StaStateC × List QueryC × List ArcC :=
  env.top_pins.foldl
    (fun acc pin =>
      if pin.is_output then
        env.clocks.foldl
          (fun acc2 clk =>
            clk.pins.foldl
              (fun acc3 clk_pin =>
                RiseFall.range.foldl
                  (fun acc4 clk_rf =>
                    let r := clkedClkRfBody env pin.id clk_pin clk clk_rf acc4.1
                    (r.1, acc4.2.1 ++ r.2.1, acc4.2.2 ++ r.2.2))
                  acc3)
              acc2)
          acc
      else acc)
    (st, [], [])

/-- `MakeTimingModel::makeTimingModel` state effects: mark every design clock
propagated, then run `findTimingFromInputs` and `findClkedOutputPaths`.
Library, cell and port construction build only the output library and touch
none of this state, so they are not modelled here. -/
def makeTimingModel (env : EnvC) (st : StaStateC) : StaStateC × List ArcC :=
  let st0 := env.clocks.foldl (fun s c => setPropagatedClock s c) st
  let r1 := findTimingFromInputs env st0
  let r2 := findClkedOutputPaths env r1.1
  (r2.1, r1.2 ++ r2.2.2)

/-! ### Characterization of the clock→output synthesis -/

theorem clkedRfStep_eq (env : EnvC) (out_pin : Nat) (clk : Clock)
    (clk_rf out_rf : RiseFall) (st : StaStateC) :
    clkedRfStep env out_pin clk clk_rf out_rf st =
      (removeOutputDelay (setOutputDelay st ⟨out_pin, out_rf, clk.id, clk_rf⟩ 0)
          ⟨out_pin, out_rf, clk.id, clk_rf⟩,
       ⟨clk, clk_rf, out_pin, out_rf, env.corner, MinMax.max, 1, 1⟩,
       (env.ends_query
           ⟨clk, clk_rf, out_pin, out_rf, env.corner, MinMax.max, 1, 1⟩).head?.map
         (fun e => makeScalarGateModel env.lib e.arrival e.slew out_rf)) := by
  rcases h : env.ends_query
      ⟨clk, clk_rf, out_pin, out_rf, env.corner, MinMax.max, 1, 1⟩ with _ | ⟨e, rest⟩ <;>
    simp [clkedRfStep, h]

theorem clkedClkRfBody_char (env : EnvC) (out_pin clk_pin : Nat) (clk : Clock)
    (clk_rf : RiseFall) (st : StaStateC) :
    (clkedClkRfBody env out_pin clk_pin clk clk_rf st).2.1 =
      [⟨clk, clk_rf, out_pin, RiseFall.rise, env.corner, MinMax.max, 1, 1⟩,
       ⟨clk, clk_rf, out_pin, RiseFall.fall, env.corner, MinMax.max, 1, 1⟩] ∧
    (clkedClkRfBody env out_pin clk_pin clk clk_rf st).2.2 =
      (if ((env.ends_query
              ⟨clk, clk_rf, out_pin, RiseFall.rise, env.corner, MinMax.max, 1, 1⟩).head?.map
            (fun e => makeScalarGateModel env.lib e.arrival e.slew RiseFall.rise)).isSome ∨
          ((env.ends_query
              ⟨clk, clk_rf, out_pin, RiseFall.fall, env.corner, MinMax.max, 1, 1⟩).head?.map
            (fun e => makeScalarGateModel env.lib e.arrival e.slew RiseFall.fall)).isSome then
        [⟨clk_pin, out_pin, Option.some clk_rf, TimingRole.regClkToQ,
          ⟨(env.ends_query
              ⟨clk, clk_rf, out_pin, RiseFall.rise, env.corner, MinMax.max, 1, 1⟩).head?.map
            (fun e => makeScalarGateModel env.lib e.arrival e.slew RiseFall.rise),
           (env.ends_query
              ⟨clk, clk_rf, out_pin, RiseFall.fall, env.corner, MinMax.max, 1, 1⟩).head?.map
            (fun e => makeScalarGateModel env.lib e.arrival e.slew RiseFall.fall),
           Option.none⟩⟩]
      else []) := by
  rcases h1 : env.ends_query
      ⟨clk, clk_rf, out_pin, RiseFall.rise, env.corner, MinMax.max, 1, 1⟩ with _ | ⟨e1, r1⟩ <;>
    rcases h2 : env.ends_query
        ⟨clk, clk_rf, out_pin, RiseFall.fall, env.corner, MinMax.max, 1, 1⟩ with _ | ⟨e2, r2⟩ <;>
      simp [clkedClkRfBody, clkedRfStep, RiseFall.range, h1, h2,
        attrsSetModel, emptyAttrs]

theorem clkedClkRfBody_log_indep (env : EnvC) (out_pin clk_pin : Nat)
    (clk : Clock) (clk_rf : RiseFall) (s s' : StaStateC) :
    (clkedClkRfBody env out_pin clk_pin clk clk_rf s).2.1 =
      (clkedClkRfBody env out_pin clk_pin clk clk_rf s').2.1 ∧
    (clkedClkRfBody env out_pin clk_pin clk clk_rf s).2.2 =
      (clkedClkRfBody env out_pin clk_pin clk clk_rf s').2.2 :=
  ⟨((clkedClkRfBody_char env out_pin clk_pin clk clk_rf s).1).trans
      ((clkedClkRfBody_char env out_pin clk_pin clk clk_rf s').1).symm,
   ((clkedClkRfBody_char env out_pin clk_pin clk clk_rf s).2).trans
      ((clkedClkRfBody_char env out_pin clk_pin clk clk_rf s').2).symm⟩

/-- A fold whose step threads a state and appends two state-independent logs
splits into a state fold and two flat-mapped logs. -/
theorem foldl_state_log {α σ β γ : Type _} (l : List α)
    (step : (σ × List β × List γ) → α → (σ × List β × List γ))
    (g : σ → α → σ) (qf : α → List β) (af : α → List γ)
    (hstep : ∀ s qs as x, step (s, qs, as) x = (g s x, qs ++ qf x, as ++ af x)) :
    ∀ (s : σ) (qs : List β) (as : List γ),
      l.foldl step (s, qs, as) =
        (l.foldl g s, qs ++ l.flatMap qf, as ++ l.flatMap af) := by
  induction l with
  | nil => intro s qs as; simp
  | cons x xs ih =>
    intro s qs as
    rw [List.foldl_cons, hstep, List.foldl_cons, ih]
    simp

/-- State effect of one (output pin, clock pin, clock transition) body. -/
def clkedBodyState (env : EnvC) (out_pin clk_pin : Nat) (clk : Clock)
    (clk_rf : RiseFall) (s : StaStateC) : StaStateC :=
  (clkedClkRfBody env out_pin clk_pin clk clk_rf s).1

/-- Query log of one body; state-independent, read off at the empty state. -/
def clkedBodyQs (env : EnvC) (out_pin clk_pin : Nat) (clk : Clock)
    (clk_rf : RiseFall) : List QueryC :=
  (clkedClkRfBody env out_pin clk_pin clk clk_rf ⟨[], [], []⟩).2.1

/-- Arcs of one body; state-independent, read off at the empty state. -/
def clkedBodyArcs (env : EnvC) (out_pin clk_pin : Nat) (clk : Clock)
    (clk_rf : RiseFall) : List ArcC :=
  (clkedClkRfBody env out_pin clk_pin clk clk_rf ⟨[], [], []⟩).2.2

/-- State effect of one top-pin iteration of `findClkedOutputPaths`. -/
def clkedStateStep (env : EnvC) (s : StaStateC) (pin : PinC) : StaStateC :=
  if pin.is_output then
    env.clocks.foldl
      (fun s2 clk =>
        clk.pins.foldl
          (fun s3 clk_pin =>
            RiseFall.range.foldl
              (fun s4 clk_rf => clkedBodyState env pin.id clk_pin clk clk_rf s4)
              s3)
          s2)
      s
  else s

/-- All queries one top-pin iteration of `findClkedOutputPaths` makes. -/
def clkedQsFor (env : EnvC) (pin : PinC) : List QueryC :=
  if pin.is_output then
    env.clocks.flatMap
      (fun clk =>
        clk.pins.flatMap
          (fun clk_pin =>
            RiseFall.range.flatMap
              (fun clk_rf => clkedBodyQs env pin.id clk_pin clk clk_rf)))
  else []

/-- All arcs one top-pin iteration of `findClkedOutputPaths` emits. -/
def clkedArcsFor (env : EnvC) (pin : PinC) : List ArcC :=
  if pin.is_output then
    env.clocks.flatMap
      (fun clk =>
        clk.pins.flatMap
          (fun clk_pin =>
            RiseFall.range.flatMap
              (fun clk_rf => clkedBodyArcs env pin.id clk_pin clk clk_rf)))
  else []

theorem clkedL4 (env : EnvC) (pid cp : Nat) (c : Clock) :
    ∀ (s : StaStateC) (qs : List QueryC) (as : List ArcC),
      RiseFall.range.foldl
          (fun acc4 clk_rf =>
            let r := clkedClkRfBody env pid cp c clk_rf acc4.1
            (r.1, acc4.2.1 ++ r.2.1, acc4.2.2 ++ r.2.2))
          (s, qs, as) =
        (RiseFall.range.foldl
            (fun s4 clk_rf => clkedBodyState env pid cp c clk_rf s4) s,
         qs ++ RiseFall.range.flatMap (fun clk_rf => clkedBodyQs env pid cp c clk_rf),
         as ++ RiseFall.range.flatMap (fun clk_rf => clkedBodyArcs env pid cp c clk_rf)) := by
  refine foldl_state_log _ _ _ _ _ ?_
  intro s qs as x
  show ((clkedClkRfBody env pid cp c x s).1,
        qs ++ (clkedClkRfBody env pid cp c x s).2.1,
        as ++ (clkedClkRfBody env pid cp c x s).2.2) = _
  rw [(clkedClkRfBody_log_indep env pid cp c x s ⟨[], [], []⟩).1,
    (clkedClkRfBody_log_indep env pid cp c x s ⟨[], [], []⟩).2]
  rfl

theorem clkedL3 (env : EnvC) (pid : Nat) (c : Clock) :
    ∀ (s : StaStateC) (qs : List QueryC) (as : List ArcC),
      c.pins.foldl
          (fun acc3 clk_pin =>
            RiseFall.range.foldl
              (fun acc4 clk_rf =>
                let r := clkedClkRfBody env pid clk_pin c clk_rf acc4.1
                (r.1, acc4.2.1 ++ r.2.1, acc4.2.2 ++ r.2.2))
              acc3)
          (s, qs, as) =
        (c.pins.foldl
            (fun s3 clk_pin =>
              RiseFall.range.foldl
                (fun s4 clk_rf => clkedBodyState env pid clk_pin c clk_rf s4) s3)
            s,
         qs ++ c.pins.flatMap
           (fun clk_pin =>
             RiseFall.range.flatMap (fun clk_rf => clkedBodyQs env pid clk_pin c clk_rf)),
         as ++ c.pins.flatMap
           (fun clk_pin =>
             RiseFall.range.flatMap (fun clk_rf => clkedBodyArcs env pid clk_pin c clk_rf))) := by
  refine foldl_state_log _ _ _ _ _ ?_
  intro s qs as x
  exact clkedL4 env pid x c s qs as

theorem clkedL2 (env : EnvC) (pid : Nat) :
    ∀ (s : StaStateC) (qs : List QueryC) (as : List ArcC),
      env.clocks.foldl
          (fun acc2 clk =>
            clk.pins.foldl
              (fun acc3 clk_pin =>
                RiseFall.range.foldl
                  (fun acc4 clk_rf =>
                    let r := clkedClkRfBody env pid clk_pin clk clk_rf acc4.1
                    (r.1, acc4.2.1 ++ r.2.1, acc4.2.2 ++ r.2.2))
                  acc3)
              acc2)
          (s, qs, as) =
        (env.clocks.foldl
            (fun s2 clk =>
              clk.pins.foldl
                (fun s3 clk_pin =>
                  RiseFall.range.foldl
                    (fun s4 clk_rf => clkedBodyState env pid clk_pin clk clk_rf s4)
                    s3)
                s2)
            s,
         qs ++ env.clocks.flatMap
           (fun clk =>
             clk.pins.flatMap
               (fun clk_pin =>
                 RiseFall.range.flatMap
                   (fun clk_rf => clkedBodyQs env pid clk_pin clk clk_rf))),
         as ++ env.clocks.flatMap
           (fun clk =>
             clk.pins.flatMap
               (fun clk_pin =>
                 RiseFall.range.flatMap
                   (fun clk_rf => clkedBodyArcs env pid clk_pin clk clk_rf)))) := by
  refine foldl_state_log _ _ _ _ _ ?_
  intro s qs as x
  exact clkedL3 env pid x s qs as

theorem findClkedOutputPaths_split (env : EnvC) (st : StaStateC) :
    findClkedOutputPaths env st =
      (env.top_pins.foldl (clkedStateStep env) st,
       env.top_pins.flatMap (clkedQsFor env),
       env.top_pins.flatMap (clkedArcsFor env)) := by
  unfold findClkedOutputPaths
  have h := foldl_state_log env.top_pins
    (fun acc pin =>
      if pin.is_output then
        env.clocks.foldl
          (fun acc2 clk =>
            clk.pins.foldl
              (fun acc3 clk_pin =>
                RiseFall.range.foldl
                  (fun acc4 clk_rf =>
                    let r := clkedClkRfBody env pin.id clk_pin clk clk_rf acc4.1
                    (r.1, acc4.2.1 ++ r.2.1, acc4.2.2 ++ r.2.2))
                  acc3)
              acc2)
          acc
      else acc)
    (clkedStateStep env) (clkedQsFor env) (clkedArcsFor env) ?_ st [] []
  · rw [h]
    simp
  · intro s qs as x
    by_cases hx : x.is_output
    · simp only [hx, if_true, clkedStateStep, clkedQsFor, clkedArcsFor]
      exact clkedL2 env x.id s qs as
    · simp only [hx, if_false, clkedStateStep, clkedQsFor, clkedArcsFor]
      simp [hx]

/-- C5: for every output pin, clock, clock transition and output transition,
the innermost step installs a transient output-delay constraint of 0 for
that output/transition relative to that clock/transition, makes exactly one
`findPathEnds` query scoped from that clock edge to that output
pin/transition at the corner and the max extreme with group and endpoint
limits 1, turns the first returned path end (if any) into a scalar gate
model from its arrival and slew keyed by the output transition, and removes
the constraint afterwards; after both output transitions, the body emits one
register-clock-to-output arc carrying those models exactly when at least one
model was built — and the full pass is the union of these bodies over every
output pin, clock, clock pin and clock transition. -/
theorem findClkedOutputPaths_limit_one (env : EnvC) (out_pin clk_pin : Nat)
    (clk : Clock) (clk_rf out_rf : RiseFall) (st : StaStateC) :
    (clkedRfStep env out_pin clk clk_rf out_rf st =
      (removeOutputDelay (setOutputDelay st ⟨out_pin, out_rf, clk.id, clk_rf⟩ 0)
          ⟨out_pin, out_rf, clk.id, clk_rf⟩,
       ⟨clk, clk_rf, out_pin, out_rf, env.corner, MinMax.max, 1, 1⟩,
       (env.ends_query
           ⟨clk, clk_rf, out_pin, out_rf, env.corner, MinMax.max, 1, 1⟩).head?.map
         (fun e => makeScalarGateModel env.lib e.arrival e.slew out_rf))) ∧
    ((clkedClkRfBody env out_pin clk_pin clk clk_rf st).2.1 =
      [⟨clk, clk_rf, out_pin, RiseFall.rise, env.corner, MinMax.max, 1, 1⟩,
       ⟨clk, clk_rf, out_pin, RiseFall.fall, env.corner, MinMax.max, 1, 1⟩]) ∧
    ((clkedClkRfBody env out_pin clk_pin clk clk_rf st).2.2 =
      (if ((env.ends_query
              ⟨clk, clk_rf, out_pin, RiseFall.rise, env.corner, MinMax.max, 1, 1⟩).head?.map
            (fun e => makeScalarGateModel env.lib e.arrival e.slew RiseFall.rise)).isSome ∨
          ((env.ends_query
              ⟨clk, clk_rf, out_pin, RiseFall.fall, env.corner, MinMax.max, 1, 1⟩).head?.map
            (fun e => makeScalarGateModel env.lib e.arrival e.slew RiseFall.fall)).isSome then
        [⟨clk_pin, out_pin, Option.some clk_rf, TimingRole.regClkToQ,
          ⟨(env.ends_query
              ⟨clk, clk_rf, out_pin, RiseFall.rise, env.corner, MinMax.max, 1, 1⟩).head?.map
            (fun e => makeScalarGateModel env.lib e.arrival e.slew RiseFall.rise),
           (env.ends_query
              ⟨clk, clk_rf, out_pin, RiseFall.fall, env.corner, MinMax.max, 1, 1⟩).head?.map
            (fun e => makeScalarGateModel env.lib e.arrival e.slew RiseFall.fall),
           Option.none⟩⟩]
      else [])) ∧
    (findClkedOutputPaths env st =
      (env.top_pins.foldl (clkedStateStep env) st,
       env.top_pins.flatMap (clkedQsFor env),
       env.top_pins.flatMap (clkedArcsFor env))) :=
  ⟨clkedRfStep_eq env out_pin clk clk_rf out_rf st,
   (clkedClkRfBody_char env out_pin clk_pin clk clk_rf st).1,
   (clkedClkRfBody_char env out_pin clk_pin clk clk_rf st).2,
   findClkedOutputPaths_split env st⟩

/-! ### Constraint hygiene and propagated-clock bookkeeping -/

theorem eraseKey_cons_sub {κ : Type} [DecidableEq κ] (l : List (κ × Int))
    (k : κ) (v : Int) :
    (((k, v) :: l).filter (fun kv => decide (kv.1 ≠ k))).Sublist l := by
  have h : ((k, v) :: l).filter (fun kv => decide (kv.1 ≠ k)) =
      l.filter (fun kv => decide (kv.1 ≠ k)) := by simp
  rw [h]
  exact List.filter_sublist l

theorem eraseKey_not_mem {κ : Type} [DecidableEq κ] (l : List (κ × Int))
    (k : κ) (w : Int) :
    (k, w) ∉ l.filter (fun kv => decide (kv.1 ≠ k)) := by
  intro hw
  rw [List.mem_filter] at hw
  simp at hw

/-- `s'` is reachable from `s` by balanced install/remove pairs: constraints
can only shrink, the propagated-clock set is untouched. -/
def EvolvesFrom (s s' : StaStateC) : Prop :=
  s'.input_delays.Sublist s.input_delays ∧
  s'.output_delays.Sublist s.output_delays ∧
  s'.propagated_clks = s.propagated_clks

theorem evolvesFrom_refl (s : StaStateC) : EvolvesFrom s s :=
  ⟨List.Sublist.refl _, List.Sublist.refl _, rfl⟩

theorem evolvesFrom_trans (a b c : StaStateC) (h1 : EvolvesFrom a b)
    (h2 : EvolvesFrom b c) : EvolvesFrom a c :=
  ⟨h2.1.trans h1.1, h2.2.1.trans h1.2.1, h2.2.2.trans h1.2.2⟩

theorem remove_set_input_evolves (st : StaStateC) (k : InKey) (v : Int) :
    EvolvesFrom st (removeInputDelay (setInputDelay st k v) k) :=
  ⟨eraseKey_cons_sub st.input_delays k v, List.Sublist.refl _, rfl⟩

theorem remove_set_output_evolves (st : StaStateC) (k : OutKey) (v : Int) :
    EvolvesFrom st (removeOutputDelay (setOutputDelay st k v) k) :=
  ⟨List.Sublist.refl _, eraseKey_cons_sub st.output_delays k v, rfl⟩

theorem inputRfStep_state (env : EnvC) (p : Nat) (rf : RiseFall)
    (acc : StaStateC × ClockMargins × OutputPinDelays) :
    (inputRfStep env p rf acc).1 =
      removeInputDelay
        (setInputDelay acc.1 ⟨p, rf, env.default_arrival_clk, env.default_arrival_rf⟩ 0)
        ⟨p, rf, env.default_arrival_clk, env.default_arrival_rf⟩ := rfl

theorem inputPinBody_state (env : EnvC) (pid : Nat) (st : StaStateC) :
    (inputPinBody env pid st).1 =
      removeInputDelay
        (setInputDelay
          (removeInputDelay
            (setInputDelay st
              ⟨pid, RiseFall.rise, env.default_arrival_clk, env.default_arrival_rf⟩ 0)
            ⟨pid, RiseFall.rise, env.default_arrival_clk, env.default_arrival_rf⟩)
          ⟨pid, RiseFall.fall, env.default_arrival_clk, env.default_arrival_rf⟩ 0)
        ⟨pid, RiseFall.fall, env.default_arrival_clk, env.default_arrival_rf⟩ := rfl

theorem clkedClkRfBody_state (env : EnvC) (op cp : Nat) (c : Clock)
    (crf : RiseFall) (st : StaStateC) :
    (clkedClkRfBody env op cp c crf st).1 =
      removeOutputDelay
        (setOutputDelay
          (removeOutputDelay
            (setOutputDelay st ⟨op, RiseFall.rise, c.id, crf⟩ 0)
            ⟨op, RiseFall.rise, c.id, crf⟩)
          ⟨op, RiseFall.fall, c.id, crf⟩ 0)
        ⟨op, RiseFall.fall, c.id, crf⟩ := rfl

/-- Folding a step that preserves a reflexive-transitive relation preserves
it over the whole list. -/
theorem foldl_preserves {α σ : Type _} (P : σ → σ → Prop)
    (hrefl : ∀ s, P s s) (htrans : ∀ a b c, P a b → P b c → P a c)
    (l : List α) (f : σ → α → σ) (hstep : ∀ s x, P s (f s x)) :
    ∀ s, P s (l.foldl f s) := by
  induction l with
  | nil => intro s; exact hrefl s
  | cons x xs ih =>
    intro s
    rw [List.foldl_cons]
    exact htrans _ _ _ (hstep s x) (ih (f s x))

theorem inputPinBody_evolves (env : EnvC) (pid : Nat) (st : StaStateC) :
    EvolvesFrom st (inputPinBody env pid st).1 := by
  rw [inputPinBody_state]
  exact evolvesFrom_trans _ _ _
    (remove_set_input_evolves st _ 0) (remove_set_input_evolves _ _ 0)

theorem findTimingFromInputs_evolves (env : EnvC) (st : StaStateC) :
    EvolvesFrom st (findTimingFromInputs env st).1 := by
  unfold findTimingFromInputs
  refine foldl_preserves
    (fun (a b : StaStateC × List ArcC) => EvolvesFrom a.1 b.1)
    (fun a => evolvesFrom_refl a.1)
    (fun a b c h1 h2 => evolvesFrom_trans a.1 b.1 c.1 h1 h2)
    env.top_pins _ ?_ (st, [])
  intro acc pin
  by_cases h : (pin.is_input && !pin.is_clock_src) = true
  · simp only [h, if_true]
    exact inputPinBody_evolves env pin.id acc.1
  · simp only [h, if_false]
    exact evolvesFrom_refl acc.1

theorem clkedClkRfBody_evolves (env : EnvC) (op cp : Nat) (c : Clock)
    (crf : RiseFall) (st : StaStateC) :
    EvolvesFrom st (clkedClkRfBody env op cp c crf st).1 := by
  rw [clkedClkRfBody_state]
  exact evolvesFrom_trans _ _ _
    (remove_set_output_evolves st _ 0) (remove_set_output_evolves _ _ 0)

theorem findClkedOutputPaths_evolves (env : EnvC) (st : StaStateC) :
    EvolvesFrom st (findClkedOutputPaths env st).1 := by
  unfold findClkedOutputPaths
  refine foldl_preserves
    (fun (a b : StaStateC × List QueryC × List ArcC) => EvolvesFrom a.1 b.1)
    (fun a => evolvesFrom_refl a.1)
    (fun a b c h1 h2 => evolvesFrom_trans a.1 b.1 c.1 h1 h2)
    env.top_pins _ ?_ (st, [], [])
  intro acc pin
  by_cases h : pin.is_output = true
  · simp only [h, if_true]
    refine foldl_preserves
      (fun (a b : StaStateC × List QueryC × List ArcC) => EvolvesFrom a.1 b.1)
      (fun a => evolvesFrom_refl a.1)
      (fun a b c h1 h2 => evolvesFrom_trans a.1 b.1 c.1 h1 h2)
      env.clocks _ ?_ acc
    intro acc2 clk
    refine foldl_preserves
      (fun (a b : StaStateC × List QueryC × List ArcC) => EvolvesFrom a.1 b.1)
      (fun a => evolvesFrom_refl a.1)
      (fun a b c h1 h2 => evolvesFrom_trans a.1 b.1 c.1 h1 h2)
      clk.pins _ ?_ acc2
    intro acc3 clk_pin
    refine foldl_preserves
      (fun (a b : StaStateC × List QueryC × List ArcC) => EvolvesFrom a.1 b.1)
      (fun a => evolvesFrom_refl a.1)
      (fun a b c h1 h2 => evolvesFrom_trans a.1 b.1 c.1 h1 h2)
      RiseFall.range _ ?_ acc3
    intro acc4 clk_rf
    exact clkedClkRfBody_evolves env pin.id clk_pin clk clk_rf acc4.1
  · simp only [h, if_false]
    exact evolvesFrom_refl acc.1

theorem propagated_foldl (l : List Clock) :
    ∀ st : StaStateC,
      (l.foldl (fun s c => setPropagatedClock s c) st).input_delays =
        st.input_delays ∧
      (l.foldl (fun s c => setPropagatedClock s c) st).output_delays =
        st.output_delays ∧
      (l.foldl (fun s c => setPropagatedClock s c) st).propagated_clks =
        l.reverse.map Clock.id ++ st.propagated_clks := by
  induction l with
  | nil => intro st; simp
  | cons x xs ih =>
    intro st
    rw [List.foldl_cons]
    refine ⟨(ih _).1, (ih _).2.1, ?_⟩
    rw [(ih _).2.2]
    simp [setPropagatedClock]

/-- C6: every transient constraint is removed in the iteration that installed
it: after one input-transition iteration the installed input-delay key is
gone (for any stored value) and the constraint list is a sublist of what the
iteration started from; after one clock→output inner iteration the installed
output-delay key is gone and the list shrank, on every control path; and
after the whole `makeTimingModel` run both constraint lists are sublists of
the initial ones, so no constraint installed by the run remains. -/
theorem transient_constraint_hygiene (env : EnvC) (st : StaStateC)
    (input_pin out_pin : Nat) (input_rf clk_rf out_rf : RiseFall) (clk : Clock)
    (acc : StaStateC × ClockMargins × OutputPinDelays) (v : Int) :
    ((inputRfStep env input_pin input_rf acc).1.input_delays.Sublist
      acc.1.input_delays) ∧
    ((⟨input_pin, input_rf, env.default_arrival_clk, env.default_arrival_rf⟩, v) ∉
      (inputRfStep env input_pin input_rf acc).1.input_delays) ∧
    ((clkedRfStep env out_pin clk clk_rf out_rf st).1.output_delays.Sublist
      st.output_delays) ∧
    ((⟨out_pin, out_rf, clk.id, clk_rf⟩, v) ∉
      (clkedRfStep env out_pin clk clk_rf out_rf st).1.output_delays) ∧
    ((makeTimingModel env st).1.input_delays.Sublist st.input_delays) ∧
    ((makeTimingModel env st).1.output_delays.Sublist st.output_delays) := by
  have e0 := propagated_foldl env.clocks st
  have h1 := findTimingFromInputs_evolves env
    (env.clocks.foldl (fun s c => setPropagatedClock s c) st)
  have h2 := findClkedOutputPaths_evolves env
    (findTimingFromInputs env
      (env.clocks.foldl (fun s c => setPropagatedClock s c) st)).1
  refine ⟨?_, ?_, ?_, ?_, ?_, ?_⟩
  · exact eraseKey_cons_sub acc.1.input_delays _ 0
  · exact eraseKey_not_mem
      ((⟨input_pin, input_rf, env.default_arrival_clk, env.default_arrival_rf⟩, (0 : Int)) ::
        acc.1.input_delays) _ v
  · exact eraseKey_cons_sub st.output_delays _ 0
  · exact eraseKey_not_mem
      ((⟨out_pin, out_rf, clk.id, clk_rf⟩, (0 : Int)) :: st.output_delays) _ v
  · have h := h2.1.trans h1.1
    rw [e0.1] at h
    exact h
  · have h := h2.2.1.trans h1.2.1
    rw [e0.2.1] at h
    exact h

/-- Concrete instantiation of the hygiene theorem: running the extractor on
an empty design from the empty state leaves no constraints, and one concrete
input iteration leaves its own key uninstalled. -/
theorem transient_constraint_hygiene_witness :
    ((makeTimingModel
        ⟨[], [], 0, RiseFall.rise, 0, ⟨Option.none⟩, fun _ _ => 0,
          fun _ _ => [], fun _ _ _ => [], fun _ => []⟩
        ⟨[], [], []⟩).1.input_delays.Sublist []) ∧
    ((⟨5, RiseFall.rise, 0, RiseFall.rise⟩, (0 : Int)) ∉
      (inputRfStep
        ⟨[], [], 0, RiseFall.rise, 0, ⟨Option.none⟩, fun _ _ => 0,
          fun _ _ => [], fun _ _ _ => [], fun _ => []⟩
        5 RiseFall.rise (⟨[], [], []⟩, [], [])).1.input_delays) :=
  ⟨(transient_constraint_hygiene
      ⟨[], [], 0, RiseFall.rise, 0, ⟨Option.none⟩, fun _ _ => 0,
        fun _ _ => [], fun _ _ _ => [], fun _ => []⟩
      ⟨[], [], []⟩ 5 6 RiseFall.rise RiseFall.rise RiseFall.rise ⟨0, []⟩
      (⟨[], [], []⟩, [], []) 0).2.2.2.2.1,
   (transient_constraint_hygiene
      ⟨[], [], 0, RiseFall.rise, 0, ⟨Option.none⟩, fun _ _ => 0,
        fun _ _ => [], fun _ _ _ => [], fun _ => []⟩
      ⟨[], [], []⟩ 5 6 RiseFall.rise RiseFall.rise RiseFall.rise ⟨0, []⟩
      (⟨[], [], []⟩, [], []) 0).2.1⟩

/-- C10: `makeTimingModel` marks every design clock propagated before any
query and nothing in the run ever unmarks one: the final propagated-clock
set is exactly the post-marking one, and every design clock is in it, for
any initial state (in particular one where it was not propagated). -/
theorem makeTimingModel_propagates_clocks (env : EnvC) (st : StaStateC)
    (c : Clock) :
    ((makeTimingModel env st).1.propagated_clks =
      (env.clocks.foldl (fun s k => setPropagatedClock s k) st).propagated_clks) ∧
    (c ∈ env.clocks → c.id ∈ (makeTimingModel env st).1.propagated_clks) := by
  have e0 := propagated_foldl env.clocks st
  have h1 := findTimingFromInputs_evolves env
    (env.clocks.foldl (fun s k => setPropagatedClock s k) st)
  have h2 := findClkedOutputPaths_evolves env
    (findTimingFromInputs env
      (env.clocks.foldl (fun s k => setPropagatedClock s k) st)).1
  have hprop : (makeTimingModel env st).1.propagated_clks =
      (env.clocks.foldl (fun s k => setPropagatedClock s k) st).propagated_clks :=
    h2.2.2.trans h1.2.2
  refine ⟨hprop, ?_⟩
  intro hc
  rw [hprop, e0.2.2]
  exact List.mem_append.mpr
    (Or.inl (List.mem_map.mpr ⟨c, List.mem_reverse.mpr hc, rfl⟩))

/-- Concrete instantiation of the propagation theorem: a design with one
clock of id 3, started from a state where nothing is propagated, ends with
clock 3 propagated. -/
theorem makeTimingModel_propagates_clocks_witness :
    3 ∈ (makeTimingModel
        ⟨[], [⟨3, [9]⟩], 0, RiseFall.rise, 0, ⟨Option.none⟩, fun _ _ => 0,
          fun _ _ => [], fun _ _ _ => [], fun _ => []⟩
        ⟨[], [], []⟩).1.propagated_clks :=
  (makeTimingModel_propagates_clocks
      ⟨[], [⟨3, [9]⟩], 0, RiseFall.rise, 0, ⟨Option.none⟩, fun _ _ => 0,
        fun _ _ => [], fun _ _ _ => [], fun _ => []⟩
      ⟨[], [], []⟩ ⟨3, [9]⟩).2 (by simp)

end STA
